import Mathlib

/-!
Verification of the SdfText natural-language specification against a shallow
embedding of `src/cinder/gl/SdfText.cpp`.

Floating-point arithmetic of the source is modelled over `ℚ`; the C++
`float -> int` conversion (truncation toward zero) is modelled by `ratTrunc`;
FreeType / msdfgen collaborators (glyph indices, outline bounds, advances,
line breaking) are modelled as oracle function parameters, matching the spec's
"external collaborators" boundary.
-/

set_option autoImplicit false

namespace SdfTextModel

/-! ### Basic numeric helpers -/

/-- C++ conversion `static_cast<int>(float)`: truncation toward zero. -/
def ratTrunc (q : ℚ) : ℤ :=
  if 0 ≤ q then ⌊q⌋ else ⌈q⌉

/-- `floor` returning a rational, modelling C's `floorf`/`std::floor`. -/
def qfloor (q : ℚ) : ℚ := (⌊q⌋ : ℚ)

/-! ### `SdfText::TextureAtlas::calculateSdfBitmapSize` (SdfText.cpp:329-333)

`ivec2 result = ivec2( ( sdfScale * ( maxGlyphSize + ( 2.0f * vec2( sdfPadding ) ) ) ) + vec2( 0.5f ) );`
-/

def calculateSdfBitmapSize (sdfScale : ℚ × ℚ) (sdfPadding : ℤ × ℤ) (maxGlyphSize : ℚ × ℚ) : ℤ × ℤ :=
  ( ratTrunc (sdfScale.1 * (maxGlyphSize.1 + 2 * (sdfPadding.1 : ℚ)) + 1/2),
    ratTrunc (sdfScale.2 * (maxGlyphSize.2 + 2 * (sdfPadding.2 : ℚ)) + 1/2) )

/-! ### `SdfText::TextureAtlas::TextureAtlas` first pass (SdfText.cpp:192-208)

For every character whose outline loads, the constructor updates
`mMaxGlyphSize`, `mMaxAscent`, `mMaxDescent` from the glyph's bounding box
`(l, b, r, t)`.  Note the source line 205 reads
`mMaxDescent = std::max( mMaxAscent, std::fabs( b ) );`. -/

structure GlyphBounds where
  l : ℚ
  b : ℚ
  r : ℚ
  t : ℚ
deriving DecidableEq

structure FirstPassState where
  maxGlyphSizeX : ℚ
  maxGlyphSizeY : ℚ
  maxAscent : ℚ
  maxDescent : ℚ
deriving DecidableEq

def firstPassStep (st : FirstPassState) (g : GlyphBounds) : FirstPassState :=
  let mx := max st.maxGlyphSizeX (g.r - g.l)
  let my := max st.maxGlyphSizeY (g.t - g.b)
  let ma := max st.maxAscent g.t
  let md := max ma |g.b|
  ⟨mx, my, ma, md⟩

/-- The first pass over the glyphs whose outlines loaded successfully,
in character order, starting from the zero-initialized members. -/
def firstPass (gs : List GlyphBounds) : FirstPassState :=
  gs.foldl firstPassStep ⟨0, 0, 0, 0⟩

theorem ratTrunc_eq_floor {q : ℚ} (h : 0 ≤ q) : ratTrunc q = ⌊q⌋ := if_pos h

/-- C3, counterexample: at `sdfScale = (1,1)`, `sdfPadding = (0,0)`,
`maxGlyphSize = (6/5, 6/5)`, the source computes `trunc(1.2 + 0.5) = 1`
per component, while the claim's `ceil(scale * (maxGlyphSize + 2*padding))`
is `2`. -/
theorem c3_bitmap_size_counterexample :
    (calculateSdfBitmapSize (1, 1) (0, 0) (6/5, 6/5)).1
      ≠ ⌈(1 : ℚ) * (6/5 + 2 * ((0 : ℤ) : ℚ))⌉ := by
  have h1 : (calculateSdfBitmapSize (1, 1) (0, 0) (6/5, 6/5)).1 = 1 := by
    norm_num [calculateSdfBitmapSize, ratTrunc]
  have h2 : ⌈(1 : ℚ) * (6/5 + 2 * ((0 : ℤ) : ℚ))⌉ = 2 := by
    rw [Int.ceil_eq_iff]
    norm_num
  rw [h1, h2]
  decide

/-- C3, amended: for componentwise non-negative sdf scale, padding and maximum
glyph size, `calculateSdfBitmapSize` returns, per component,
`floor(scale * (maxGlyphSize + 2*padding) + 1/2)` — round-half-up to the
nearest integer, not `ceil`. -/
theorem c3_bitmap_size_amended (sdfScale : ℚ × ℚ) (sdfPadding : ℤ × ℤ) (maxGlyphSize : ℚ × ℚ)
    (hs1 : 0 ≤ sdfScale.1) (hs2 : 0 ≤ sdfScale.2)
    (hp1 : 0 ≤ sdfPadding.1) (hp2 : 0 ≤ sdfPadding.2)
    (hg1 : 0 ≤ maxGlyphSize.1) (hg2 : 0 ≤ maxGlyphSize.2) :
    calculateSdfBitmapSize sdfScale sdfPadding maxGlyphSize
      = ( ⌊sdfScale.1 * (maxGlyphSize.1 + 2 * (sdfPadding.1 : ℚ)) + 1/2⌋,
          ⌊sdfScale.2 * (maxGlyphSize.2 + 2 * (sdfPadding.2 : ℚ)) + 1/2⌋ ) := by
  have hq1 : (0 : ℚ) ≤ sdfScale.1 * (maxGlyphSize.1 + 2 * (sdfPadding.1 : ℚ)) + 1/2 := by
    have hc : (0 : ℚ) ≤ (sdfPadding.1 : ℚ) := by exact_mod_cast hp1
    positivity
  have hq2 : (0 : ℚ) ≤ sdfScale.2 * (maxGlyphSize.2 + 2 * (sdfPadding.2 : ℚ)) + 1/2 := by
    have hc : (0 : ℚ) ≤ (sdfPadding.2 : ℚ) := by exact_mod_cast hp2
    positivity
  unfold calculateSdfBitmapSize
  rw [ratTrunc_eq_floor hq1, ratTrunc_eq_floor hq2]

/-- C3, witness for the amended theorem: at scale `(2,2)`, padding `(2,2)`,
max glyph size `(7/2, 7/2)`, the bitmap size is `floor(2*(7/2+4)+1/2) = 15`
per component. -/
theorem c3_bitmap_size_amended_witness :
    calculateSdfBitmapSize (2, 2) (2, 2) (7/2, 7/2) = (15, 15) := by
  have h := c3_bitmap_size_amended (2, 2) (2, 2) (7/2, 7/2)
    (by norm_num) (by norm_num) (by norm_num) (by norm_num) (by norm_num) (by norm_num)
  rw [h]
  norm_num

/-- C4, code bug evaluation: with a single glyph of bounds
`(l, b, r, t) = (0, -1, 5, 10)`, the constructor's first pass yields
`mMaxDescent = 10`, seeded from `mMaxAscent` by the slip at SdfText.cpp:205
(`mMaxDescent = std::max( mMaxAscent, std::fabs( b ) )`), while the maximum
of `|b|` over the glyphs is `1`. -/
theorem c4_first_pass_bug_eval :
    (firstPass [⟨0, -1, 5, 10⟩]).maxDescent = 10 ∧
    |(GlyphBounds.mk 0 (-1) 5 10).b| = 1 ∧
    (firstPass [⟨0, -1, 5, 10⟩]).maxAscent = 10 ∧
    (firstPass [⟨0, -1, 5, 10⟩]).maxGlyphSizeX = 5 ∧
    (firstPass [⟨0, -1, 5, 10⟩]).maxGlyphSizeY = 11 := by
  norm_num [firstPass, firstPassStep, abs]

/-! ### `SdfTextManager::getTextureAtlas` (SdfText.cpp:612-663)

The manager keeps `AtlasCacher mTrackedTextureAtlases`, a list of
`(CacheKey, TextureAtlasRef)` pairs.  `getTextureAtlas` computes the key,
scans the list with `std::find_if` for an equal key, returns the stored atlas
on a hit, and calls `SdfText::TextureAtlas::create` on a miss.  Note that the
source never inserts into `mTrackedTextureAtlases` anywhere (no `push_back`),
so the list state is returned unchanged on both paths.  Atlas identity is
modelled by the number of the `create` invocation that produced it, and a
build counter makes the number of Atlas Builder invocations observable. -/

structure CacheKey where
  familyName : String
  styleName : String
  utf8Chars : String
  textureSize : ℤ × ℤ
  sdfBitmapSize : ℤ × ℤ
deriving DecidableEq

structure AtlasManagerState where
  trackedTextureAtlases : List (CacheKey × Nat)
  numBuilds : Nat
deriving DecidableEq

def getTextureAtlas (st : AtlasManagerState) (key : CacheKey) : Nat × AtlasManagerState :=
  match st.trackedTextureAtlases.find? (fun e => decide (e.1 = key)) with
  | some e => (e.2, st)
  | none => (st.numBuilds, ⟨st.trackedTextureAtlases, st.numBuilds + 1⟩)

/-- C1, code bug evaluation: two successive `getTextureAtlas` calls with the
identical computed `CacheKey`, starting from the manager's initial empty
cache, both invoke the Atlas Builder (the build counter reaches 2), the second
call returns a different atlas than the first, and the tracked-atlas list is
still empty afterwards — the miss path never appends the built atlas, so the
claimed hit path is unreachable. -/
theorem c1_cache_bug_eval :
    (getTextureAtlas ⟨[], 0⟩ ⟨"Arial", "Regular", "AB", (1024, 1024), (40, 40)⟩).2.numBuilds = 1 ∧
    (getTextureAtlas (getTextureAtlas ⟨[], 0⟩ ⟨"Arial", "Regular", "AB", (1024, 1024), (40, 40)⟩).2
        ⟨"Arial", "Regular", "AB", (1024, 1024), (40, 40)⟩).2.numBuilds = 2 ∧
    (getTextureAtlas (getTextureAtlas ⟨[], 0⟩ ⟨"Arial", "Regular", "AB", (1024, 1024), (40, 40)⟩).2
        ⟨"Arial", "Regular", "AB", (1024, 1024), (40, 40)⟩).1
      ≠ (getTextureAtlas ⟨[], 0⟩ ⟨"Arial", "Regular", "AB", (1024, 1024), (40, 40)⟩).1 ∧
    (getTextureAtlas (getTextureAtlas ⟨[], 0⟩ ⟨"Arial", "Regular", "AB", (1024, 1024), (40, 40)⟩).2
        ⟨"Arial", "Regular", "AB", (1024, 1024), (40, 40)⟩).2.trackedTextureAtlases = [] := by
  refine ⟨rfl, rfl, ?_, rfl⟩
  simp [getTextureAtlas]

/-! ### `LineMeasure::operator()` (SdfText.cpp:826-860) and
`SdfTextBox::calculateLineBreaks` (SdfText.cpp:862-868)

`LineMeasure` returns `true` immediately when `mMaxWidth >= MAX_SIZE`
(with `MAX_SIZE = 1000000.0f`); otherwise it sums the cached advance vectors
of the line's glyphs into `pen`, sets `measuredWidth = pen.x >> 6` on every
iteration, and accepts iff `measuredWidth <= mMaxWidth`.  The arithmetic
right shift `>> 6` is floor division by 64.  `calculateLineBreaks` passes
`mSize.x` when positive and `MAX_SIZE` otherwise.  A line is modelled by the
list of its glyphs' cached advance vectors. -/

def MAX_SIZE : ℤ := 1000000

def lineMeasureLoop : (ℤ × ℤ) → ℤ → List (ℤ × ℤ) → ℤ
  | _, measuredWidth, [] => measuredWidth
  | pen, _, a :: rest =>
      lineMeasureLoop (pen.1 + a.1, pen.2 + a.2) (Int.fdiv (pen.1 + a.1) 64) rest

def lineMeasure (maxWidth : ℤ) (advances : List (ℤ × ℤ)) : Bool :=
  if maxWidth ≥ MAX_SIZE then true
  else decide (lineMeasureLoop (0, 0) 0 advances ≤ maxWidth)

def lineBreakMaxWidth (sizeX : ℤ) : ℤ :=
  if sizeX > 0 then sizeX else MAX_SIZE

theorem lineMeasureLoop_fdiv (advances : List (ℤ × ℤ)) :
    ∀ p q : ℤ, lineMeasureLoop (p, q) (Int.fdiv p 64) advances
      = Int.fdiv (p + (advances.map Prod.fst).sum) 64 := by
  induction advances with
  | nil => intro p q; simp [lineMeasureLoop]
  | cons a rest ih =>
      intro p q
      rw [lineMeasureLoop, ih (p + a.1) (q + a.2)]
      rw [List.map_cons, List.sum_cons, add_assoc]

/-- C5, counterexample: at `maxWidth = 1000000` — a finite positive width —
a line whose advances sum to `64 * 1000001` has advance-derived pixel width
`1000001 > maxWidth`, yet `LineMeasure` accepts it, because
`mMaxWidth >= MAX_SIZE` short-circuits to `true`. -/
theorem c5_line_measure_counterexample :
    lineMeasure 1000000 [((64000064 : ℤ), (0 : ℤ))] = true ∧
    ¬ (Int.fdiv ((([((64000064 : ℤ), (0 : ℤ))].map Prod.fst).sum)) 64 ≤ 1000000) := by
  constructor
  · rfl
  · decide

/-- C5, amended: for every positive max width `W` strictly below the
`MAX_SIZE` sentinel (1000000), the line-measure predicate accepts a line iff
the sum of the cached `advance.x` values shifted right by 6 (floor division
by 64) is `≤ W` — acceptance at exactly `W`, rejection only strictly past it;
and for every box width `sizeX ≤ 0` (mapped to the `MAX_SIZE` sentinel), as
well as any width at or above `MAX_SIZE`, every line is accepted
unconditionally. -/
theorem c5_line_measure_amended :
    (∀ (W : ℤ) (advances : List (ℤ × ℤ)), 0 < W → W < MAX_SIZE →
       (lineMeasure W advances = true ↔ Int.fdiv ((advances.map Prod.fst).sum) 64 ≤ W)) ∧
    (∀ (sizeX : ℤ) (advances : List (ℤ × ℤ)), sizeX ≤ 0 →
       lineMeasure (lineBreakMaxWidth sizeX) advances = true) := by
  constructor
  · intro W advances hpos hlt
    rw [lineMeasure, if_neg (by omega)]
    have h0 : lineMeasureLoop (0, 0) 0 advances = Int.fdiv ((advances.map Prod.fst).sum) 64 := by
      have h := lineMeasureLoop_fdiv advances 0 0
      simpa using h
    rw [h0]
    exact decide_eq_true_iff
  · intro sizeX advances hle
    have hw : lineBreakMaxWidth sizeX = MAX_SIZE := by
      rw [lineBreakMaxWidth, if_neg (by omega)]
    rw [hw, lineMeasure, if_pos le_rfl]

/-- C5, witness: a line of cumulative advance `6400` (pixel width exactly
`100`) is accepted at `W = 100`, and with the unbounded sentinel
(`sizeX = 0`) an arbitrarily wide line is accepted. -/
theorem c5_line_measure_amended_witness :
    lineMeasure 100 [((6400 : ℤ), (0 : ℤ))] = true ∧
    lineMeasure (lineBreakMaxWidth 0) [((640000000 : ℤ), (0 : ℤ))] = true :=
  ⟨(c5_line_measure_amended.1 100 [(6400, 0)] (by decide) (by decide)).2 (by decide),
   c5_line_measure_amended.2 0 [(640000000, 0)] (by decide)⟩

/-! ### Destination quads of `SdfText::drawGlyphs` (SdfText.cpp:1171-1183 and 1310-1322)

Both overloads build a per-glyph `destRect` from the glyph's atlas area:
scale by `fontSizeScale`, subtract the upper-left, scale by the caller's
`scale`, add the placement position scaled likewise, add the origin
(baseline overload: `vec2( baseline.x, baseline.y - sdfBitmapSize.y * fontSizeScale )`;
clip-rect overload: `vec2( offset.x, offset.y )`), add the rounded scaled
origin offset, and finally add the padding term
(baseline overload: `fontSizeScale * vec2( -sdfPadding.x, sdfPadding.y )`;
clip-rect overload: `fontSizeScale * vec2( -sdfPadding.x, -sdfPadding.y )`).
With `pixelSnap`, the origin is floored before the loop and the rect's
upper-left is re-floored before emission. -/

structure RectQ where
  x1 : ℚ
  y1 : ℚ
  x2 : ℚ
  y2 : ℚ
deriving DecidableEq

def rectScale (r : RectQ) (s : ℚ) : RectQ := ⟨r.x1 * s, r.y1 * s, r.x2 * s, r.y2 * s⟩

def rectAddVec (r : RectQ) (v : ℚ × ℚ) : RectQ := ⟨r.x1 + v.1, r.y1 + v.2, r.x2 + v.1, r.y2 + v.2⟩

def rectSubVec (r : RectQ) (v : ℚ × ℚ) : RectQ := ⟨r.x1 - v.1, r.y1 - v.2, r.x2 - v.1, r.y2 - v.2⟩

def destRectBaseline (texCoords : RectQ) (originOffset : ℚ × ℚ) (fontSizeScale scale : ℚ)
    (glyphPos baselineIn sdfPadding : ℚ × ℚ) (sdfBitmapSizeY : ℚ) (pixelSnap : Bool) : RectQ :=
  let baseline := if pixelSnap then (qfloor baselineIn.1, qfloor baselineIn.2) else baselineIn
  let d1 := rectScale texCoords fontSizeScale
  let d2 := rectSubVec d1 (d1.x1, d1.y1)
  let d3 := rectScale d2 scale
  let d4 := rectAddVec d3 (glyphPos.1 * scale, glyphPos.2 * scale)
  let d5 := rectAddVec d4 (baseline.1, baseline.2 - sdfBitmapSizeY * fontSizeScale)
  let oo := (fontSizeScale * originOffset.1, fontSizeScale * originOffset.2)
  let d6 := rectAddVec d5 (qfloor (oo.1 + 1/2) * scale, qfloor (-oo.2) * scale)
  let d7 := rectAddVec d6 (fontSizeScale * (-sdfPadding.1), fontSizeScale * sdfPadding.2)
  if pixelSnap then rectSubVec d7 (d7.x1 - qfloor d7.x1, d7.y1 - qfloor d7.y1) else d7

def destRectClipRect (texCoords : RectQ) (originOffset : ℚ × ℚ) (fontSizeScale scale : ℚ)
    (glyphPos offsetIn sdfPadding : ℚ × ℚ) (pixelSnap : Bool) : RectQ :=
  let offset := if pixelSnap then (qfloor offsetIn.1, qfloor offsetIn.2) else offsetIn
  let d1 := rectScale texCoords fontSizeScale
  let d2 := rectSubVec d1 (d1.x1, d1.y1)
  let d3 := rectScale d2 scale
  let d4 := rectAddVec d3 (glyphPos.1 * scale, glyphPos.2 * scale)
  let d5 := rectAddVec d4 (offset.1, offset.2)
  let oo := (fontSizeScale * originOffset.1, fontSizeScale * originOffset.2)
  let d6 := rectAddVec d5 (qfloor (oo.1 + 1/2) * scale, qfloor (-oo.2) * scale)
  let d7 := rectAddVec d6 (fontSizeScale * (-sdfPadding.1), fontSizeScale * (-sdfPadding.2))
  if pixelSnap then rectSubVec d7 (d7.x1 - qfloor d7.x1, d7.y1 - qfloor d7.y1) else d7

/-- C2, counterexample: with atlas area `(0,0,10,10)`, zero origin offset,
`fontSizeScale = scale = 1`, placement `(0,0)`, padding `(2,2)`,
`sdfBitmapSize.y = 10`, clip flags and pixel snap off, the baseline overload
at baseline `(0,0)` yields the quad `(-2,-8,8,2)` while the clip-rect
overload at offset `(0,0)` yields `(-2,-2,8,8)`: the overloads do not
produce equal quads from the same origin. -/
theorem c2_dest_rect_counterexample :
    destRectBaseline ⟨0, 0, 10, 10⟩ (0, 0) 1 1 (0, 0) (0, 0) (2, 2) 10 false
      ≠ destRectClipRect ⟨0, 0, 10, 10⟩ (0, 0) 1 1 (0, 0) (0, 0) (2, 2) false := by
  have hb : destRectBaseline ⟨0, 0, 10, 10⟩ (0, 0) 1 1 (0, 0) (0, 0) (2, 2) 10 false
      = ⟨-2, -8, 8, 2⟩ := by
    simp only [destRectBaseline, rectScale, rectAddVec, rectSubVec, qfloor, Bool.false_eq_true,
      if_false]
    norm_num
  have hc : destRectClipRect ⟨0, 0, 10, 10⟩ (0, 0) 1 1 (0, 0) (0, 0) (2, 2) false
      = ⟨-2, -2, 8, 8⟩ := by
    simp only [destRectClipRect, rectScale, rectAddVec, rectSubVec, qfloor, Bool.false_eq_true,
      if_false]
    norm_num
  rw [hb, hc]
  simp only [ne_eq, RectQ.mk.injEq]
  norm_num

/-- C2, amended: with both clip flags disabled and pixel snap off, the two
overloads agree on x but differ on y by the fixed amount
`fontSizeScale * (sdfBitmapSize.y - 2 * sdfPadding.y)`: for every input, the
baseline overload at baseline `b` computes exactly the quad the clip-rect
overload computes at offset
`(b.x, b.y - fontSizeScale * (sdfBitmapSize.y - 2 * sdfPadding.y))`. -/
theorem c2_dest_rect_amended (texCoords : RectQ) (originOffset : ℚ × ℚ)
    (fontSizeScale scale : ℚ) (glyphPos b sdfPadding : ℚ × ℚ) (sdfBitmapSizeY : ℚ) :
    destRectClipRect texCoords originOffset fontSizeScale scale glyphPos
        (b.1, b.2 - fontSizeScale * (sdfBitmapSizeY - 2 * sdfPadding.2)) sdfPadding false
      = destRectBaseline texCoords originOffset fontSizeScale scale glyphPos b sdfPadding
          sdfBitmapSizeY false := by
  simp only [destRectBaseline, destRectClipRect, rectScale, rectAddVec, rectSubVec,
    Bool.false_eq_true, if_false, RectQ.mk.injEq]
  refine ⟨by ring_nf, by ring_nf, by ring_nf, by ring_nf⟩

/-! ### Per-glyph clipping in the clip-rect `drawGlyphs` overload (SdfText.cpp:1324-1353)

`clipped` starts from `destRect`; each enabled axis intersects with the clip
rectangle; a glyph with `clipped.x1 >= clipped.x2 || clipped.y1 >= clipped.y2`
is skipped (`continue`) before anything is pushed; otherwise the quad
`clipped` is emitted and the texture coordinates are re-derived through
`coordScale = srcSize / destSize`.  `none` models the `continue` (no vertices,
texture coordinates, or indices for that glyph). -/

def clipQuad (clipHorizontal clipVertical : Bool) (clip destRect srcTexCoords : RectQ) :
    Option (RectQ × RectQ) :=
  let clipped : RectQ :=
    { x1 := if clipHorizontal then max destRect.x1 clip.x1 else destRect.x1
      x2 := if clipHorizontal then min destRect.x2 clip.x2 else destRect.x2
      y1 := if clipVertical then max destRect.y1 clip.y1 else destRect.y1
      y2 := if clipVertical then min destRect.y2 clip.y2 else destRect.y2 }
  if clipped.x1 ≥ clipped.x2 ∨ clipped.y1 ≥ clipped.y2 then none
  else
    let coordScale : ℚ × ℚ :=
      ( (srcTexCoords.x2 - srcTexCoords.x1) / (destRect.x2 - destRect.x1),
        (srcTexCoords.y2 - srcTexCoords.y1) / (destRect.y2 - destRect.y1) )
    let tx1 := srcTexCoords.x1 + (clipped.x1 - destRect.x1) * coordScale.1
    let tx2 := tx1 + (clipped.x2 - clipped.x1) * coordScale.1
    let ty1 := srcTexCoords.y1 + (clipped.y1 - destRect.y1) * coordScale.2
    let ty2 := ty1 + (clipped.y2 - clipped.y1) * coordScale.2
    some (clipped, ⟨tx1, ty1, tx2, ty2⟩)

/-- C7: (1) a glyph whose destination quad collapses to zero or negative
extent after clipping on an enabled axis emits no geometry (`none`, i.e. no
vertices, texture coordinates, or indices); (2) a glyph that survives has its
texture-coordinate extent shrunk by the same fraction as its destination
extent, per axis: `texWidth / srcWidth = clippedWidth / destWidth` and
`texHeight / srcHeight = clippedHeight / destHeight` (for non-degenerate
source and destination rectangles). -/
theorem c7_clip_correctness (clipHorizontal clipVertical : Bool) (clip destRect srcTexCoords : RectQ) :
    ( ((clipHorizontal = true ∧ min destRect.x2 clip.x2 ≤ max destRect.x1 clip.x1) ∨
       (clipVertical = true ∧ min destRect.y2 clip.y2 ≤ max destRect.y1 clip.y1)) →
      clipQuad clipHorizontal clipVertical clip destRect srcTexCoords = none ) ∧
    ( ∀ clipped tex, clipQuad clipHorizontal clipVertical clip destRect srcTexCoords
          = some (clipped, tex) →
        destRect.x2 - destRect.x1 ≠ 0 → destRect.y2 - destRect.y1 ≠ 0 →
        srcTexCoords.x2 - srcTexCoords.x1 ≠ 0 → srcTexCoords.y2 - srcTexCoords.y1 ≠ 0 →
        (tex.x2 - tex.x1) / (srcTexCoords.x2 - srcTexCoords.x1)
            = (clipped.x2 - clipped.x1) / (destRect.x2 - destRect.x1) ∧
        (tex.y2 - tex.y1) / (srcTexCoords.y2 - srcTexCoords.y1)
            = (clipped.y2 - clipped.y1) / (destRect.y2 - destRect.y1) ) := by
  constructor
  · intro h
    rw [clipQuad]
    rcases h with ⟨hH, hle⟩ | ⟨hV, hle⟩
    · exact if_pos (Or.inl (by rw [hH]; simpa using hle))
    · exact if_pos (Or.inr (by rw [hV]; simpa using hle))
  · intro clipped tex hsome hdx hdy hsx hsy
    rw [clipQuad] at hsome
    by_cases hdeg :
        (if clipHorizontal then max destRect.x1 clip.x1 else destRect.x1) ≥
            (if clipHorizontal then min destRect.x2 clip.x2 else destRect.x2) ∨
        (if clipVertical then max destRect.y1 clip.y1 else destRect.y1) ≥
            (if clipVertical then min destRect.y2 clip.y2 else destRect.y2)
    · rw [if_pos hdeg] at hsome
      exact absurd hsome (by simp)
    · rw [if_neg hdeg] at hsome
      have hc : clipped = { x1 := if clipHorizontal then max destRect.x1 clip.x1 else destRect.x1
                            y1 := if clipVertical then max destRect.y1 clip.y1 else destRect.y1
                            x2 := if clipHorizontal then min destRect.x2 clip.x2 else destRect.x2
                            y2 := if clipVertical then min destRect.y2 clip.y2 else destRect.y2 } := by
        have := (Option.some.injEq _ _).mp hsome
        exact (congrArg Prod.fst this.symm)
      have ht : tex = ⟨srcTexCoords.x1 + (clipped.x1 - destRect.x1) *
                          ((srcTexCoords.x2 - srcTexCoords.x1) / (destRect.x2 - destRect.x1)),
                       srcTexCoords.y1 + (clipped.y1 - destRect.y1) *
                          ((srcTexCoords.y2 - srcTexCoords.y1) / (destRect.y2 - destRect.y1)),
                       srcTexCoords.x1 + (clipped.x1 - destRect.x1) *
                          ((srcTexCoords.x2 - srcTexCoords.x1) / (destRect.x2 - destRect.x1)) +
                          (clipped.x2 - clipped.x1) *
                          ((srcTexCoords.x2 - srcTexCoords.x1) / (destRect.x2 - destRect.x1)),
                       srcTexCoords.y1 + (clipped.y1 - destRect.y1) *
                          ((srcTexCoords.y2 - srcTexCoords.y1) / (destRect.y2 - destRect.y1)) +
                          (clipped.y2 - clipped.y1) *
                          ((srcTexCoords.y2 - srcTexCoords.y1) / (destRect.y2 - destRect.y1))⟩ := by
        have hinj := (Option.some.injEq _ _).mp hsome
        have h2 := congrArg Prod.snd hinj.symm
        rw [hc]
        exact h2
      constructor
      · rw [ht]
        field_simp
        ring
      · rw [ht]
        field_simp
        ring

/-- C7, witness: a quad fully right-and-below a clip rect emits nothing, and
a quad `(0,0,10,10)` clipped to `(0,0,5,5)` keeps half its destination extent
and exactly half its texture-coordinate extent per axis. -/
theorem c7_clip_correctness_witness :
    clipQuad true true ⟨0, 0, 5, 5⟩ ⟨20, 20, 30, 30⟩ ⟨0, 0, 1, 1⟩ = none ∧
    ( ((1 : ℚ)/2 - 0) / (1 - 0) = ((5 : ℚ) - 0) / (10 - 0) ∧
      ((1 : ℚ)/2 - 0) / (1 - 0) = ((5 : ℚ) - 0) / (10 - 0) ) :=
  ⟨(c7_clip_correctness true true ⟨0, 0, 5, 5⟩ ⟨20, 20, 30, 30⟩ ⟨0, 0, 1, 1⟩).1
      (Or.inl ⟨rfl, by norm_num⟩),
   (c7_clip_correctness true true ⟨0, 0, 5, 5⟩ ⟨0, 0, 10, 10⟩ ⟨0, 0, 1, 1⟩).2
      ⟨0, 0, 5, 5⟩ ⟨0, 0, 1/2, 1/2⟩ (by norm_num [clipQuad])
      (by norm_num) (by norm_num) (by norm_num) (by norm_num)⟩

/-! ### Per-page batching of the baseline `drawGlyphs` overload (SdfText.cpp:1147-1251)

For each texture page, the loop over `glyphMeasures` skips (`continue`) any
placement whose glyph has no entry in `mGlyphMap` (SdfText.cpp:1160-1164) and
any whose `mTextureIndex` differs from the current page; every survivor
appends 4 vertices, 4 texture coordinates and 6 indices.  After the loop,
`if( curIdx == 0 ) continue;` (SdfText.cpp:1206-1208) skips the page's draw
call entirely.  `curTex->getAreaTexCoords` is an external collaborator,
modelled by the `areaTexCoords` oracle. -/

structure GlyphInfo where
  textureIndex : Nat
  texCoords : RectQ
  originOffset : ℚ × ℚ

structure DrawParams where
  glyphMap : Nat → Option GlyphInfo
  texIdx : Nat
  areaTexCoords : RectQ → RectQ
  fontSizeScale : ℚ
  scale : ℚ
  baseline : ℚ × ℚ
  sdfPadding : ℚ × ℚ
  sdfBitmapSizeY : ℚ
  pixelSnap : Bool

def pageQuads (P : DrawParams) : List (Nat × (ℚ × ℚ)) → List (RectQ × RectQ)
  | [] => []
  | p :: rest =>
    match P.glyphMap p.1 with
    | none => pageQuads P rest
    | some glyphInfo =>
      if glyphInfo.textureIndex ≠ P.texIdx then pageQuads P rest
      else
        (destRectBaseline glyphInfo.texCoords glyphInfo.originOffset P.fontSizeScale P.scale
           p.2 P.baseline P.sdfPadding P.sdfBitmapSizeY P.pixelSnap,
         P.areaTexCoords glyphInfo.texCoords) :: pageQuads P rest

def quadVerts (r : RectQ) : List ℚ := [r.x2, r.y1, r.x1, r.y1, r.x2, r.y2, r.x1, r.y2]

def quadIndices (curIdx : Nat) : List Nat :=
  [curIdx, curIdx + 1, curIdx + 2, curIdx + 2, curIdx + 1, curIdx + 3]

/-- The page's draw call: `none` models `if( curIdx == 0 ) continue;` —
no batch is submitted for a page with zero surviving glyphs. -/
def pageBatch (P : DrawParams) (glyphMeasures : List (Nat × (ℚ × ℚ))) :
    Option (List ℚ × List ℚ × List Nat) :=
  let quads := pageQuads P glyphMeasures
  if quads.isEmpty then none
  else some
    ( (quads.map (fun q => quadVerts q.1)).flatten,
      (quads.map (fun q => quadVerts q.2)).flatten,
      ((List.range quads.length).map (fun n => quadIndices (4 * n))).flatten )

theorem pageQuads_cons (P : DrawParams) (p : Nat × (ℚ × ℚ)) (rest : List (Nat × (ℚ × ℚ))) :
    pageQuads P (p :: rest) =
      match P.glyphMap p.1 with
      | none => pageQuads P rest
      | some glyphInfo =>
        if glyphInfo.textureIndex ≠ P.texIdx then pageQuads P rest
        else
          (destRectBaseline glyphInfo.texCoords glyphInfo.originOffset P.fontSizeScale P.scale
             p.2 P.baseline P.sdfPadding P.sdfBitmapSizeY P.pixelSnap,
           P.areaTexCoords glyphInfo.texCoords) :: pageQuads P rest := rfl

theorem pageQuads_cons_none (P : DrawParams) (p : Nat × (ℚ × ℚ)) (rest : List (Nat × (ℚ × ℚ)))
    (hp : P.glyphMap p.1 = none) : pageQuads P (p :: rest) = pageQuads P rest := by
  rw [pageQuads_cons, hp]

theorem pageQuads_cons_some_off (P : DrawParams) (p : Nat × (ℚ × ℚ))
    (rest : List (Nat × (ℚ × ℚ))) (info : GlyphInfo) (hp : P.glyphMap p.1 = some info)
    (hne : info.textureIndex ≠ P.texIdx) : pageQuads P (p :: rest) = pageQuads P rest := by
  rw [pageQuads_cons, hp]
  exact if_pos hne

theorem pageQuads_cons_some_on (P : DrawParams) (p : Nat × (ℚ × ℚ))
    (rest : List (Nat × (ℚ × ℚ))) (info : GlyphInfo) (hp : P.glyphMap p.1 = some info)
    (heq : info.textureIndex = P.texIdx) :
    pageQuads P (p :: rest)
      = (destRectBaseline info.texCoords info.originOffset P.fontSizeScale P.scale
           p.2 P.baseline P.sdfPadding P.sdfBitmapSizeY P.pixelSnap,
         P.areaTexCoords info.texCoords) :: pageQuads P rest := by
  rw [pageQuads_cons, hp]
  exact if_neg (by simp [heq])

theorem pageQuads_skip_missing (P : DrawParams) (p : Nat × (ℚ × ℚ))
    (hp : P.glyphMap p.1 = none) (xs ys : List (Nat × (ℚ × ℚ))) :
    pageQuads P (xs ++ p :: ys) = pageQuads P (xs ++ ys) := by
  induction xs with
  | nil =>
      rw [List.nil_append, List.nil_append, pageQuads_cons_none P p ys hp]
  | cons x xs ih =>
      rw [List.cons_append, List.cons_append]
      cases hx : P.glyphMap x.1 with
      | none =>
          rw [pageQuads_cons_none P x _ hx, pageQuads_cons_none P x _ hx, ih]
      | some info =>
          by_cases hti : info.textureIndex = P.texIdx
          · rw [pageQuads_cons_some_on P x _ info hx hti,
              pageQuads_cons_some_on P x _ info hx hti, ih]
          · rw [pageQuads_cons_some_off P x _ info hx hti,
              pageQuads_cons_some_off P x _ info hx hti, ih]

theorem pageQuads_eq_nil_of_none_survives (P : DrawParams) (ps : List (Nat × (ℚ × ℚ)))
    (h : ∀ q ∈ ps, ∀ info, P.glyphMap q.1 = some info → info.textureIndex ≠ P.texIdx) :
    pageQuads P ps = [] := by
  induction ps with
  | nil => rfl
  | cons q rest ih =>
      have hrest : pageQuads P rest = [] :=
        ih (fun r hr info hi => h r (List.mem_cons_of_mem q hr) info hi)
      cases hq : P.glyphMap q.1 with
      | none => rw [pageQuads_cons_none P q rest hq, hrest]
      | some info =>
          have hne : info.textureIndex ≠ P.texIdx := h q (List.mem_cons_self q rest) info hq
          rw [pageQuads_cons_some_off P q rest info hq hne, hrest]

/-- C9: (1) a placement whose glyph has no entry in the atlas glyph map is
skipped silently — inserting it anywhere into the placement sequence leaves
the page's batch unchanged (and raises no error, the function is total);
(2) a page for which no placement survives the per-glyph filters (missing
`GlyphInfo` or a different texture page) contributes no draw call at all
(`none`), never an empty batch. -/
theorem c9_skip_and_no_empty_batch :
    (∀ (P : DrawParams) (xs ys : List (Nat × (ℚ × ℚ))) (p : Nat × (ℚ × ℚ)),
        P.glyphMap p.1 = none →
        pageBatch P (xs ++ p :: ys) = pageBatch P (xs ++ ys)) ∧
    (∀ (P : DrawParams) (ps : List (Nat × (ℚ × ℚ))),
        (∀ q ∈ ps, ∀ info, P.glyphMap q.1 = some info → info.textureIndex ≠ P.texIdx) →
        pageBatch P ps = none) := by
  constructor
  · intro P xs ys p hp
    unfold pageBatch
    rw [pageQuads_skip_missing P p hp xs ys]
  · intro P ps h
    unfold pageBatch
    rw [pageQuads_eq_nil_of_none_survives P ps h]
    rfl

/-- C9, witness: with an empty glyph map, a single placement is skipped
(batches of `[placement]` and `[]` agree) and the page yields no draw call. -/
theorem c9_skip_and_no_empty_batch_witness :
    pageBatch ⟨fun _ => none, 0, id, 1, 1, (0, 0), (2, 2), 10, false⟩ ([(5, ((0 : ℚ), (0 : ℚ)))] ++ []) =
      pageBatch ⟨fun _ => none, 0, id, 1, 1, (0, 0), (2, 2), 10, false⟩ ([] ++ []) ∧
    pageBatch ⟨fun _ => none, 0, id, 1, 1, (0, 0), (2, 2), 10, false⟩ [(5, ((0 : ℚ), (0 : ℚ)))] = none := by
  constructor
  · exact c9_skip_and_no_empty_batch.1 _ [] [] (5, (0, 0)) rfl
  · exact c9_skip_and_no_empty_batch.2 _ [(5, (0, 0))] (by simp)

/-! ### `SdfText::cacheGlyphMetrics` (SdfText.cpp:1475-1486) and the
constructor (SdfText.cpp:1084-1096)

The `TextureAtlas` constructor inserts `mCharMap[ch] = FT_Get_Char_Index( face, ch )`
for every character of the build set (with a space appended when absent,
SdfText.cpp:176-189); duplicate code points insert the identical entry.
`cacheGlyphMetrics` then walks `mCharMap` and stores
`mCachedGlyphMetrics[glyphIndex] = advance` for every entry.  `FT_Get_Char_Index`
and the loaded advance are external collaborators, modelled by the `charIndex`
and `advanceOf` oracles; the `unordered_map` is modelled by an insertion list
read through `List.lookup` (the most recent insertion for a key wins). -/

def withSpace (chars : List Nat) : List Nat :=
  if 32 ∈ chars then chars else chars ++ [32]

def atlasCharMapEntries (charIndex : Nat → Nat) (chars : List Nat) : List (Nat × Nat) :=
  (withSpace chars).map (fun ch => (ch, charIndex ch))

def cacheGlyphMetrics (advanceOf : Nat → ℤ × ℤ) (charMapEntries : List (Nat × Nat)) :
    List (Nat × (ℤ × ℤ)) :=
  charMapEntries.foldl (fun m e => (e.2, advanceOf e.2) :: m) []

theorem cacheGlyphMetrics_lookup_aux (advanceOf : Nat → ℤ × ℤ) (g : Nat) :
    ∀ (entries : List (Nat × Nat)) (acc : List (Nat × (ℤ × ℤ))),
      ((∃ ch, (ch, g) ∈ entries) ∨ List.lookup g acc = some (advanceOf g)) →
      List.lookup g (entries.foldl (fun m e => (e.2, advanceOf e.2) :: m) acc)
        = some (advanceOf g) := by
  intro entries
  induction entries with
  | nil =>
      intro acc h
      rcases h with ⟨ch, hmem⟩ | hacc
      · exact absurd hmem (List.not_mem_nil _)
      · simpa using hacc
  | cons e rest ih =>
      intro acc h
      rw [List.foldl_cons]
      apply ih
      by_cases hge : g = e.2
      · right
        subst hge
        simp [List.lookup]
      · rcases h with ⟨ch, hmem⟩ | hacc
        · rcases List.mem_cons.mp hmem with heq | hrest
          · exact absurd (congrArg Prod.snd heq) hge
          · exact Or.inl ⟨ch, hrest⟩
        · right
          have hb : (g == e.2) = false := by simp [hge]
          rw [List.lookup, hb]
          exact hacc

/-- C10: after construction, the private metrics cache contains an advance
entry for every glyph value appearing in the atlas's character-to-glyph map
(first conjunct); consequently, for every text whose code points all belong
to the build character set, every metrics-table lookup performed during
layout — which looks up `FT_Get_Char_Index` of a code point of the text —
finds an entry (second conjunct). -/
theorem c10_metrics_cache_populated (advanceOf : Nat → ℤ × ℤ) (charIndex : Nat → Nat)
    (chars text : List Nat) (hsub : ∀ ch ∈ text, ch ∈ chars) :
    (∀ ch g, (ch, g) ∈ atlasCharMapEntries charIndex chars →
        List.lookup g (cacheGlyphMetrics advanceOf (atlasCharMapEntries charIndex chars))
          = some (advanceOf g)) ∧
    (∀ ch ∈ text,
        List.lookup (charIndex ch)
            (cacheGlyphMetrics advanceOf (atlasCharMapEntries charIndex chars))
          = some (advanceOf (charIndex ch))) := by
  have hmain : ∀ ch g, (ch, g) ∈ atlasCharMapEntries charIndex chars →
      List.lookup g (cacheGlyphMetrics advanceOf (atlasCharMapEntries charIndex chars))
        = some (advanceOf g) := by
    intro ch g hmem
    exact cacheGlyphMetrics_lookup_aux advanceOf g (atlasCharMapEntries charIndex chars) []
      (Or.inl ⟨ch, hmem⟩)
  refine ⟨hmain, ?_⟩
  intro ch hch
  apply hmain ch
  rw [atlasCharMapEntries]
  apply List.mem_map_of_mem
  rw [withSpace]
  by_cases hsp : 32 ∈ chars
  · rw [if_pos hsp]
    exact hsub ch hch
  · rw [if_neg hsp]
    exact List.mem_append_left _ (hsub ch hch)

/-- C10, witness: with glyph lookup `id` and build set `{65, 66}`, the layout
lookup for the text `"A"` (`[65]`) finds the cached advance. -/
theorem c10_metrics_cache_populated_witness :
    List.lookup ((fun ch => ch) 65)
        (cacheGlyphMetrics (fun g => ((g : ℤ), 0)) (atlasCharMapEntries (fun ch => ch) [65, 66]))
      = some ((fun g => ((g : ℤ), 0)) ((fun ch => ch) 65)) :=
  (c10_metrics_cache_populated (fun g => ((g : ℤ), 0)) (fun ch => ch) [65, 66] [65]
    (by intro ch hch; rw [List.mem_singleton] at hch; subst hch; simp)).2 65 (by simp)

/-! ### `SdfTextBox::measureGlyphs` (SdfText.cpp:870-910)

The text is split into lines by `calculateLineBreaks` (through the external
`lineBreakUtf8`, modelled by the `breakLines` oracle).  For each line, a pen
starts at `(0,0)`; each code point is mapped to its glyph via
`FT_Get_Char_Index` (`charIndex`), its cached advance is fetched
(`advanceOf`; the claim's precondition is that every glyph is cached), a
placement `(glyph, (pen.x / 64 + 0.5, curY))` is emitted, and the pen
advances.  After each line `curY` grows by
`fontSizeScale * (ascent + descent + leading)` with
`fontSizeScale = mFont.getSize() / 32` and
`leading = mFont.getLeading() + drawOptions.getLeading()`.
Empty text returns the empty sequence immediately. -/

def lineHeight (fontSize ascent descent fontLeading optLeading : ℚ) : ℚ :=
  (fontSize / 32) * (ascent + descent + (fontLeading + optLeading))

def placeLineAux (curY : ℚ) : ℤ × ℤ → List (Nat × (ℤ × ℤ)) → List (Nat × (ℚ × ℚ))
  | _, [] => []
  | pen, (g, adv) :: rest =>
      (g, ((pen.1 : ℚ) / 64 + 1/2, curY)) :: placeLineAux curY (pen.1 + adv.1, pen.2 + adv.2) rest

def measureGlyphsAux (lh : ℚ) : ℚ → List (List (Nat × (ℤ × ℤ))) → List (Nat × (ℚ × ℚ))
  | _, [] => []
  | curY, line :: rest => placeLineAux curY (0, 0) line ++ measureGlyphsAux lh (curY + lh) rest

def glyphLines (breakLines : List Nat → List (List Nat)) (charIndex : Nat → Nat)
    (advanceOf : Nat → ℤ × ℤ) (text : List Nat) : List (List (Nat × (ℤ × ℤ))) :=
  (breakLines text).map (fun line => line.map (fun ch => (charIndex ch, advanceOf (charIndex ch))))

def measureGlyphs (breakLines : List Nat → List (List Nat)) (charIndex : Nat → Nat)
    (advanceOf : Nat → ℤ × ℤ) (fontSize ascent descent fontLeading optLeading : ℚ)
    (text : List Nat) : List (Nat × (ℚ × ℚ)) :=
  if text.isEmpty then []
  else measureGlyphsAux (lineHeight fontSize ascent descent fontLeading optLeading) 0
         (glyphLines breakLines charIndex advanceOf text)

/-- Number of placements emitted before line `i` (sum of earlier line lengths). -/
def flatIdx (lines : List (List (Nat × (ℤ × ℤ)))) (i : Nat) : Nat :=
  ((lines.take i).map List.length).sum

/-- Sum of the `advance.x` of the first `k` glyphs of a line. -/
def prefixAdvanceX (line : List (Nat × (ℤ × ℤ))) (k : Nat) : ℤ :=
  ((line.take k).map (fun e => e.2.1)).sum

theorem placeLineAux_length (curY : ℚ) :
    ∀ (line : List (Nat × (ℤ × ℤ))) (pen : ℤ × ℤ),
      (placeLineAux curY pen line).length = line.length := by
  intro line
  induction line with
  | nil => intro pen; rfl
  | cons e rest ih =>
      intro pen
      rw [show placeLineAux curY pen (e :: rest)
            = (e.1, ((pen.1 : ℚ) / 64 + 1/2, curY)) ::
                placeLineAux curY (pen.1 + e.2.1, pen.2 + e.2.2) rest from rfl]
      rw [List.length_cons, List.length_cons, ih]

theorem placeLineAux_get? (curY : ℚ) :
    ∀ (line : List (Nat × (ℤ × ℤ))) (pen : ℤ × ℤ) (k : Nat) (e : Nat × (ℤ × ℤ)),
      line.get? k = some e →
      (placeLineAux curY pen line).get? k
        = some (e.1, (((pen.1 + prefixAdvanceX line k : ℤ) : ℚ) / 64 + 1/2, curY)) := by
  intro line
  induction line with
  | nil => intro pen k e he; simp at he
  | cons x rest ih =>
      intro pen k e he
      rw [show placeLineAux curY pen (x :: rest)
            = (x.1, ((pen.1 : ℚ) / 64 + 1/2, curY)) ::
                placeLineAux curY (pen.1 + x.2.1, pen.2 + x.2.2) rest from rfl]
      cases k with
      | zero =>
          rw [List.get?_cons_zero] at he
          rw [List.get?_cons_zero]
          have hx : x = e := Option.some.inj he
          subst hx
          have hpre : prefixAdvanceX (x :: rest) 0 = 0 := rfl
          rw [hpre, add_zero]
      | succ k =>
          rw [List.get?_cons_succ] at he
          rw [List.get?_cons_succ]
          rw [ih (pen.1 + x.2.1, pen.2 + x.2.2) k e he]
          have hpre : prefixAdvanceX (x :: rest) (k + 1) = x.2.1 + prefixAdvanceX rest k := by
            rw [prefixAdvanceX, prefixAdvanceX, List.take_succ_cons, List.map_cons, List.sum_cons]
          rw [hpre]
          have harith : pen.1 + x.2.1 + prefixAdvanceX rest k
              = pen.1 + (x.2.1 + prefixAdvanceX rest k) := by ring
          rw [harith]

theorem measureGlyphsAux_get? (lh : ℚ) :
    ∀ (lines : List (List (Nat × (ℤ × ℤ)))) (c : ℚ) (i k : Nat)
      (line : List (Nat × (ℤ × ℤ))) (e : Nat × (ℤ × ℤ)),
      lines.get? i = some line → line.get? k = some e →
      (measureGlyphsAux lh c lines).get? (flatIdx lines i + k)
        = some (e.1, ((prefixAdvanceX line k : ℚ) / 64 + 1/2, c + i * lh)) := by
  intro lines
  induction lines with
  | nil => intro c i k line e hi; simp at hi
  | cons L rest ih =>
      intro c i k line e hi hk
      rw [show measureGlyphsAux lh c (L :: rest)
            = placeLineAux c (0, 0) L ++ measureGlyphsAux lh (c + lh) rest from rfl]
      cases i with
      | zero =>
          rw [List.get?_cons_zero] at hi
          have hL : L = line := Option.some.inj hi
          subst hL
          have hflat : flatIdx (L :: rest) 0 = 0 := rfl
          rw [hflat, zero_add]
          have hklen : k < L.length := List.get?_eq_some.mp hk |>.1
          rw [List.get?_append (by rw [placeLineAux_length]; exact hklen)]
          rw [placeLineAux_get? c L (0, 0) k e hk]
          norm_num
      | succ i =>
          rw [List.get?_cons_succ] at hi
          have hflat : flatIdx (L :: rest) (i + 1) = L.length + flatIdx rest i := by
            rw [flatIdx, flatIdx, List.take_succ_cons, List.map_cons, List.sum_cons]
          rw [hflat]
          have hlen : (placeLineAux c (0, 0) L).length = L.length := placeLineAux_length c L (0, 0)
          have hge : (placeLineAux c (0, 0) L).length ≤ L.length + flatIdx rest i + k := by
            rw [hlen]; omega
          rw [List.get?_append_right hge]
          have hidx : L.length + flatIdx rest i + k - (placeLineAux c (0, 0) L).length
              = flatIdx rest i + k := by
            rw [hlen]; omega
          rw [hidx, ih (c + lh) i k line e hi hk]
          have harith : c + lh + i * lh = c + (i + 1 : Nat) * lh := by
            push_cast
            ring
          rw [harith]

/-- C6: for non-empty text (whose glyphs all have cached metrics, modelled by
the total `advanceOf` oracle), the placement at flattened position
`flatIdx lines i + k` — the k-th code point of line i — is its glyph paired
with `x = (sum of the advance.x of the preceding glyphs on the line) / 64 + 1/2`
and `y = i * fontSizeScale * (ascent + descent + leading)`,
where `fontSizeScale = fontSize / 32` and `leading` is the font's leading
plus the draw options' extra leading; and for empty input text the result is
the empty sequence. -/
theorem c6_measure_glyphs (breakLines : List Nat → List (List Nat)) (charIndex : Nat → Nat)
    (advanceOf : Nat → ℤ × ℤ) (fontSize ascent descent fontLeading optLeading : ℚ) :
    (∀ (text : List Nat), text ≠ [] →
      ∀ (i k : Nat) (line : List (Nat × (ℤ × ℤ))) (e : Nat × (ℤ × ℤ)),
        (glyphLines breakLines charIndex advanceOf text).get? i = some line →
        line.get? k = some e →
        (measureGlyphs breakLines charIndex advanceOf fontSize ascent descent fontLeading
            optLeading text).get? (flatIdx (glyphLines breakLines charIndex advanceOf text) i + k)
          = some (e.1, ((prefixAdvanceX line k : ℚ) / 64 + 1/2,
              (i : ℚ) * lineHeight fontSize ascent descent fontLeading optLeading))) ∧
    measureGlyphs breakLines charIndex advanceOf fontSize ascent descent fontLeading optLeading []
      = [] := by
  constructor
  · intro text hne i k line e hi hk
    rw [measureGlyphs, if_neg (by simpa using hne)]
    rw [measureGlyphsAux_get? (lineHeight fontSize ascent descent fontLeading optLeading)
      (glyphLines breakLines charIndex advanceOf text) 0 i k line e hi hk]
    rw [zero_add]
  · rfl

/-- C6, witness: with a single-line break oracle, identity glyph lookup and
zero advances, the second placement of `[1, 2]` is glyph `2` at
`x = 0/64 + 1/2 = 1/2`, `y = 0` (line 0). -/
theorem c6_measure_glyphs_witness :
    (measureGlyphs (fun t => [t]) (fun ch => ch) (fun _ => ((0 : ℤ), (0 : ℤ)))
        32 1 1 0 0 [1, 2]).get? 1 = some (2, (1/2, 0)) := by
  have h := (c6_measure_glyphs (fun t => [t]) (fun ch => ch) (fun _ => ((0 : ℤ), (0 : ℤ)))
      32 1 1 0 0).1 [1, 2] (by simp) 0 1
      [(1, ((0 : ℤ), (0 : ℤ))), (2, ((0 : ℤ), (0 : ℤ)))] (2, ((0 : ℤ), (0 : ℤ))) rfl rfl
  simpa [prefixAdvanceX, lineHeight, flatIdx, glyphLines] using h

/-! ### Atlas packing (SdfText.cpp:210-261, 305-308)

`numGlyphColumns = ( textureWidth / sdfBitmapSize.x ) - 1`,
`numGlyphRows = ( textureHeight / sdfBitmapSize.y ) - 1`,
`numGlyphsPerAtlas = numGlyphColumns * numGlyphRows` (SdfText.cpp:213-215;
the `size_t` subtraction is total here because the claims assume at least one
column and row).  The packing loop walks the sorted distinct glyph set,
records `(glyphIndex, curRenderPos)`, advances `curRenderPos.x` by
`mSdfBitmapSize.x + 1`, starts a new row when `curRenderIndex % numGlyphColumns == 0`,
and flushes the page when `curRenderIndex == numGlyphsPerAtlas` or the set is
exhausted.  The recorded texture rectangle of a glyph at `position` is
`Area( 0, 0, bw, bh ) + position` (SdfText.cpp:307), i.e. the pixel rectangle
`[pos.x, pos.x + bw) × [pos.y, pos.y + bh)`. -/

def numGlyphColumns (textureWidth bitmapX : Nat) : Nat := textureWidth / bitmapX - 1

def numGlyphRows (textureHeight bitmapY : Nat) : Nat := textureHeight / bitmapY - 1

def packLoop (cols perPage bw bh : Nat) :
    Nat → Nat × Nat → List (Nat × (Nat × Nat)) → List Nat → List (List (Nat × (Nat × Nat)))
  | _, _, _, [] => []
  | curIdx, pos, curPage, g :: rest =>
    if curIdx + 1 = perPage ∨ rest.isEmpty then
      (curPage ++ [(g, pos)]) :: packLoop cols perPage bw bh 0 (0, 0) [] rest
    else
      packLoop cols perPage bw bh (curIdx + 1)
        (if (curIdx + 1) % cols = 0 then (0, pos.2 + bh + 1) else (pos.1 + bw + 1, pos.2))
        (curPage ++ [(g, pos)]) rest

def buildRenderAtlases (cols perPage bw bh : Nat) (glyphs : List Nat) :
    List (List (Nat × (Nat × Nat))) :=
  packLoop cols perPage bw bh 0 (0, 0) [] glyphs

/-- The cell position of the in-page index `j` in the row-major gutter layout:
column `j % cols`, row `j / cols`, with cells `bw + 1` and `bh + 1` apart. -/
def posOf (cols bw bh j : Nat) : Nat × Nat :=
  ((j % cols) * (bw + 1), (j / cols) * (bh + 1))

def placeSeq (cols bw bh : Nat) : Nat → List Nat → List (Nat × (Nat × Nat))
  | _, [] => []
  | j, g :: gs => (g, posOf cols bw bh j) :: placeSeq cols bw bh (j + 1) gs

/-- The recorded pixel rectangles `[p.1, p.1 + bw) × [p.2, p.2 + bh)` of two
glyph cells intersect. -/
def rectsOverlap (bw bh : Nat) (p q : Nat × Nat) : Prop :=
  max p.1 q.1 < min (p.1 + bw) (q.1 + bw) ∧ max p.2 q.2 < min (p.2 + bh) (q.2 + bh)

theorem posOf_zero (cols bw bh : Nat) : posOf cols bw bh 0 = (0, 0) := by
  simp [posOf]

theorem posOf_succ (cols bw bh : Nat) (j : Nat) :
    (if (j + 1) % cols = 0 then (0, (posOf cols bw bh j).2 + bh + 1)
     else ((posOf cols bw bh j).1 + bw + 1, (posOf cols bw bh j).2))
      = posOf cols bw bh (j + 1) := by
  by_cases h : (j + 1) % cols = 0
  · rw [if_pos h]
    have hdvd : cols ∣ (j + 1) := Nat.dvd_iff_mod_eq_zero.mpr h
    have hdiv : (j + 1) / cols = j / cols + 1 := by
      rw [Nat.succ_div, if_pos hdvd]
    rw [posOf, posOf, h, hdiv]
    refine Prod.ext ?_ ?_
    · simp
    · simp
      ring
  · rw [if_neg h]
    have hndvd : ¬ cols ∣ (j + 1) := fun hd =>
      h (Nat.dvd_iff_mod_eq_zero.mp hd)
    have hdiv : (j + 1) / cols = j / cols := by
      rw [Nat.succ_div, if_neg hndvd, add_zero]
    have hmod : (j + 1) % cols = j % cols + 1 := by
      have h1 := Nat.div_add_mod j cols
      have h2 := Nat.div_add_mod (j + 1) cols
      rw [hdiv] at h2
      omega
    rw [posOf, posOf, hmod, hdiv]
    refine Prod.ext ?_ ?_
    · simp
      ring
    · simp

theorem placeSeq_snoc (cols bw bh : Nat) :
    ∀ (pre : List Nat) (j g : Nat),
      placeSeq cols bw bh j (pre ++ [g])
        = placeSeq cols bw bh j pre ++ [(g, posOf cols bw bh (j + pre.length))] := by
  intro pre
  induction pre with
  | nil => intro j g; simp [placeSeq]
  | cons x xs ih =>
      intro j g
      rw [List.cons_append]
      rw [show placeSeq cols bw bh j (x :: (xs ++ [g]))
            = (x, posOf cols bw bh j) :: placeSeq cols bw bh (j + 1) (xs ++ [g]) from rfl]
      rw [ih (j + 1) g]
      rw [show placeSeq cols bw bh j (x :: xs)
            = (x, posOf cols bw bh j) :: placeSeq cols bw bh (j + 1) xs from rfl]
      rw [List.cons_append]
      rw [show j + 1 + xs.length = j + (x :: xs).length from by simp; omega]

theorem placeSeq_get?_eq (cols bw bh : Nat) :
    ∀ (chunk : List Nat) (j k : Nat) (e : Nat × (Nat × Nat)),
      (placeSeq cols bw bh j chunk).get? k = some e →
      chunk.get? k = some e.1 ∧ e.2 = posOf cols bw bh (j + k) := by
  intro chunk
  induction chunk with
  | nil => intro j k e h; simp [placeSeq] at h
  | cons x gs ih =>
      intro j k e h
      rw [show placeSeq cols bw bh j (x :: gs)
            = (x, posOf cols bw bh j) :: placeSeq cols bw bh (j + 1) gs from rfl] at h
      cases k with
      | zero =>
          rw [List.get?_cons_zero] at h
          obtain rfl := (Option.some.inj h).symm
          exact ⟨rfl, by rw [add_zero]⟩
      | succ k =>
          rw [List.get?_cons_succ] at h
          obtain ⟨h1, h2⟩ := ih (j + 1) k e h
          refine ⟨by rw [List.get?_cons_succ]; exact h1, ?_⟩
          rw [h2, show j + 1 + k = j + (k + 1) from by omega]

theorem packLoop_cons (cols perPage bw bh curIdx : Nat) (pos : Nat × Nat)
    (curPage : List (Nat × (Nat × Nat))) (g : Nat) (rest : List Nat) :
    packLoop cols perPage bw bh curIdx pos curPage (g :: rest)
      = if curIdx + 1 = perPage ∨ rest.isEmpty then
          (curPage ++ [(g, pos)]) :: packLoop cols perPage bw bh 0 (0, 0) [] rest
        else
          packLoop cols perPage bw bh (curIdx + 1)
            (if (curIdx + 1) % cols = 0 then (0, pos.2 + bh + 1) else (pos.1 + bw + 1, pos.2))
            (curPage ++ [(g, pos)]) rest := rfl

/-- Every page the packing loop emits is a row-major placement
`placeSeq cols bw bh 0 chunk` of a non-empty chunk of at most `perPage`
glyphs. -/
theorem packLoop_pages (cols perPage bw bh : Nat) (hp : 0 < perPage) :
    ∀ (gs pre : List Nat), pre.length < perPage →
      ∀ page ∈ packLoop cols perPage bw bh pre.length (posOf cols bw bh pre.length)
          (placeSeq cols bw bh 0 pre) gs,
        ∃ chunk : List Nat, page = placeSeq cols bw bh 0 chunk ∧
          0 < chunk.length ∧ chunk.length ≤ perPage := by
  intro gs
  induction gs with
  | nil =>
      intro pre hpre page hpage
      simp [packLoop] at hpage
  | cons g rest ih =>
      intro pre hpre page hpage
      rw [packLoop_cons] at hpage
      by_cases hfl : pre.length + 1 = perPage ∨ rest.isEmpty = true
      · rw [if_pos hfl] at hpage
        rcases List.mem_cons.mp hpage with h1 | h2
        · refine ⟨pre ++ [g], ?_, by simp, by simp; omega⟩
          rw [h1, placeSeq_snoc cols bw bh pre 0 g, zero_add]
        · rw [← posOf_zero cols bw bh] at h2
          exact ih [] (by simpa using hp) page h2
      · rw [if_neg hfl] at hpage
        push_neg at hfl
        obtain ⟨hne, hrest⟩ := hfl
        rw [posOf_succ cols bw bh pre.length] at hpage
        have hsnoc := placeSeq_snoc cols bw bh pre 0 g
        rw [zero_add] at hsnoc
        rw [← hsnoc] at hpage
        have hlen1 : (pre ++ [g]).length = pre.length + 1 := by simp
        rw [← hlen1] at hpage
        exact ih (pre ++ [g]) (by omega) page hpage

/-- The pages' glyphs, concatenated, are exactly the current page's glyphs
followed by the remaining input — the loop assigns the input glyphs to cells
in input order. -/
theorem packLoop_flatten (cols perPage bw bh : Nat) :
    ∀ (gs : List Nat) (curIdx : Nat) (pos : Nat × Nat) (curPage : List (Nat × (Nat × Nat))),
      gs ≠ [] →
      ((packLoop cols perPage bw bh curIdx pos curPage gs).map
          (fun p => p.map Prod.fst)).flatten
        = curPage.map Prod.fst ++ gs := by
  intro gs
  induction gs with
  | nil => intro curIdx pos curPage h; exact absurd rfl h
  | cons g rest ih =>
      intro curIdx pos curPage _
      rw [packLoop_cons]
      by_cases hfl : curIdx + 1 = perPage ∨ rest.isEmpty = true
      · rw [if_pos hfl]
        rw [List.map_cons, List.flatten_cons]
        by_cases hrest : rest = []
        · subst hrest
          rw [show packLoop cols perPage bw bh 0 (0, 0) [] [] = [] from rfl]
          simp
        · rw [ih 0 (0, 0) [] hrest]
          simp
      · rw [if_neg hfl]
        have hrest : rest ≠ [] := by
          intro hr
          subst hr
          simp at hfl
        rw [ih _ _ _ hrest]
        simp

theorem buildRenderAtlases_pages (cols perPage bw bh : Nat) (hp : 0 < perPage)
    (glyphs : List Nat) :
    ∀ page ∈ buildRenderAtlases cols perPage bw bh glyphs,
      ∃ chunk : List Nat, page = placeSeq cols bw bh 0 chunk ∧
        0 < chunk.length ∧ chunk.length ≤ perPage := by
  intro page hpage
  rw [buildRenderAtlases, ← posOf_zero cols bw bh] at hpage
  exact packLoop_pages cols perPage bw bh hp glyphs [] (by simpa using hp) page hpage

theorem cell_intervals_disjoint (bw c1 c2 : Nat) (hne : c1 ≠ c2) :
    ¬ (max (c1 * (bw + 1)) (c2 * (bw + 1))
        < min (c1 * (bw + 1) + bw) (c2 * (bw + 1) + bw)) := by
  intro hlt
  rcases Nat.lt_or_ge c1 c2 with h | h
  · have hmul : (c1 + 1) * (bw + 1) ≤ c2 * (bw + 1) := mul_le_mul_right' (by omega) _
    have hexp : (c1 + 1) * (bw + 1) = c1 * (bw + 1) + (bw + 1) := by ring
    have h1 : c2 * (bw + 1) ≤ max (c1 * (bw + 1)) (c2 * (bw + 1)) := le_max_right _ _
    have h2 : min (c1 * (bw + 1) + bw) (c2 * (bw + 1) + bw) ≤ c1 * (bw + 1) + bw :=
      min_le_left _ _
    linarith
  · have hlt2 : c2 < c1 := by omega
    have hmul : (c2 + 1) * (bw + 1) ≤ c1 * (bw + 1) := mul_le_mul_right' (by omega) _
    have hexp : (c2 + 1) * (bw + 1) = c2 * (bw + 1) + (bw + 1) := by ring
    have h1 : c1 * (bw + 1) ≤ max (c1 * (bw + 1)) (c2 * (bw + 1)) := le_max_left _ _
    have h2 : min (c1 * (bw + 1) + bw) (c2 * (bw + 1) + bw) ≤ c2 * (bw + 1) + bw :=
      min_le_right _ _
    linarith

theorem posOf_inBounds (cols rows bw bh texW texH k : Nat) (hc : 0 < cols)
    (hk : k < cols * rows)
    (hfw : cols * (bw + 1) ≤ texW + 1) (hfh : rows * (bh + 1) ≤ texH + 1) :
    (posOf cols bw bh k).1 + bw ≤ texW ∧ (posOf cols bw bh k).2 + bh ≤ texH := by
  rw [posOf]
  constructor
  · have ha : k % cols < cols := Nat.mod_lt k hc
    have hmul : (k % cols + 1) * (bw + 1) ≤ cols * (bw + 1) := mul_le_mul_right' (by omega) _
    have hexp : (k % cols + 1) * (bw + 1) = (k % cols) * (bw + 1) + (bw + 1) := by ring
    linarith
  · have hb : k / cols < rows := by
      rw [Nat.div_lt_iff_lt_mul hc, mul_comm]
      exact hk
    have hmul : (k / cols + 1) * (bh + 1) ≤ rows * (bh + 1) := mul_le_mul_right' (by omega) _
    have hexp : (k / cols + 1) * (bh + 1) = (k / cols) * (bh + 1) + (bh + 1) := by ring
    linarith

theorem posOf_disjoint (cols bw bh k1 k2 : Nat) (hne : k1 ≠ k2) :
    ¬ rectsOverlap bw bh (posOf cols bw bh k1) (posOf cols bw bh k2) := by
  intro hov
  obtain ⟨hx, hy⟩ := hov
  rw [posOf, posOf] at hx hy
  by_cases hcol : k1 % cols = k2 % cols
  · have hrow : k1 / cols ≠ k2 / cols := by
      intro hd
      apply hne
      calc k1 = cols * (k1 / cols) + k1 % cols := (Nat.div_add_mod k1 cols).symm
        _ = cols * (k2 / cols) + k2 % cols := by rw [hd, hcol]
        _ = k2 := Nat.div_add_mod k2 cols
    exact cell_intervals_disjoint bh (k1 / cols) (k2 / cols) hrow hy
  · exact cell_intervals_disjoint bw (k1 % cols) (k2 % cols) hcol hx

/-- C8, counterexample: with texture size `10 × 10` and bitmap size `2 × 2`
(`numGlyphColumns = numGlyphRows = 10/2 - 1 = 4`), packing the four glyphs
`[0, 1, 2, 3]` places glyph 3 at `(9, 0)` whose recorded rectangle
`Area(0,0,2,2) + (9,0)` reaches `x = 11 > 10`: the claimed in-bounds
invariant fails because the accumulated 1-pixel gutters overflow the page. -/
theorem c8_packing_counterexample :
    ¬ (∀ page ∈ buildRenderAtlases (numGlyphColumns 10 2)
          (numGlyphColumns 10 2 * numGlyphRows 10 2) 2 2 [0, 1, 2, 3],
        ∀ e ∈ page, e.2.1 + 2 ≤ 10 ∧ e.2.2 + 2 ≤ 10) := by
  decide

/-- C8, amended: assuming at least one glyph cell column and row
(`numGlyphColumns ≥ 1`, `numGlyphRows ≥ 1`) and — this is the amendment —
that the gutter-extended grid fits the page
(`cols * (bw+1) ≤ texWidth + 1` and `rows * (bh+1) ≤ texHeight + 1`):
every page entry sits at the row-major gutter cell of its in-page index
(ascending input order, 1-pixel gutter), every recorded rectangle lies fully
within the page's pixel bounds, no two rectangles of distinct entries of a
page overlap, and the pages' glyphs concatenate to the (sorted, distinct)
input glyph sequence.  Without the added fit hypotheses the in-bounds part
is false (see the counterexample). -/
theorem c8_packing_amended (texW texH bw bh : Nat) (glyphs : List Nat) (cols rows : Nat)
    (_hcols : cols = numGlyphColumns texW bw) (_hrows : rows = numGlyphRows texH bh)
    (hc : 1 ≤ cols) (hr : 1 ≤ rows)
    (hfw : cols * (bw + 1) ≤ texW + 1) (hfh : rows * (bh + 1) ≤ texH + 1) :
    (∀ page ∈ buildRenderAtlases cols (cols * rows) bw bh glyphs,
        (∀ (k : Nat) (e : Nat × (Nat × Nat)), page.get? k = some e →
            e.2 = posOf cols bw bh k) ∧
        (∀ e ∈ page, e.2.1 + bw ≤ texW ∧ e.2.2 + bh ≤ texH) ∧
        (∀ (k1 k2 : Nat) (e1 e2 : Nat × (Nat × Nat)),
            page.get? k1 = some e1 → page.get? k2 = some e2 → k1 ≠ k2 →
            ¬ rectsOverlap bw bh e1.2 e2.2)) ∧
    (glyphs ≠ [] →
      ((buildRenderAtlases cols (cols * rows) bw bh glyphs).map
          (fun p => p.map Prod.fst)).flatten = glyphs) := by
  have hc0 : 0 < cols := hc
  have hp : 0 < cols * rows := Nat.mul_pos hc hr
  constructor
  · intro page hpage
    obtain ⟨chunk, hchunk, hpos0, hlen⟩ :=
      buildRenderAtlases_pages cols (cols * rows) bw bh hp glyphs page hpage
    subst hchunk
    refine ⟨?_, ?_, ?_⟩
    · intro k e hk
      obtain ⟨h1, h2⟩ := placeSeq_get?_eq cols bw bh chunk 0 k e hk
      rw [h2, zero_add]
    · intro e he
      obtain ⟨k, hk⟩ := List.mem_iff_get?.mp he
      obtain ⟨h1, h2⟩ := placeSeq_get?_eq cols bw bh chunk 0 k e hk
      obtain ⟨hklt, -⟩ := List.get?_eq_some.mp h1
      rw [h2, zero_add]
      exact posOf_inBounds cols rows bw bh texW texH k hc0 (lt_of_lt_of_le hklt hlen) hfw hfh
    · intro k1 k2 e1 e2 hk1 hk2 hne
      obtain ⟨h11, h12⟩ := placeSeq_get?_eq cols bw bh chunk 0 k1 e1 hk1
      obtain ⟨h21, h22⟩ := placeSeq_get?_eq cols bw bh chunk 0 k2 e2 hk2
      rw [h12, h22, zero_add, zero_add]
      exact posOf_disjoint cols bw bh k1 k2 hne
  · intro hglyphs
    rw [buildRenderAtlases]
    rw [packLoop_flatten cols (cols * rows) bw bh glyphs 0 (0, 0) [] hglyphs]
    simp

/-- C8, witness: texture `6 × 6`, bitmap `2 × 2` gives a `2 × 2` cell grid
whose gutter-extended width `2 * 3 = 6 ≤ 7` fits; packing `[10, 11, 12]`
yields in-bounds pages whose glyphs concatenate back to `[10, 11, 12]`. -/
theorem c8_packing_amended_witness :
    (∀ page ∈ buildRenderAtlases 2 (2 * 2) 2 2 [10, 11, 12],
        ∀ e ∈ page, e.2.1 + 2 ≤ 6 ∧ e.2.2 + 2 ≤ 6) ∧
    ((buildRenderAtlases 2 (2 * 2) 2 2 [10, 11, 12]).map
        (fun p => p.map Prod.fst)).flatten = [10, 11, 12] :=
  ⟨fun page hpage =>
      ((c8_packing_amended 6 6 2 2 [10, 11, 12] 2 2 (by decide) (by decide) (by decide)
          (by decide) (by decide) (by decide)).1 page hpage).2.1,
   (c8_packing_amended 6 6 2 2 [10, 11, 12] 2 2 (by decide) (by decide) (by decide)
        (by decide) (by decide) (by decide)).2 (by decide)⟩

end SdfTextModel
